import Mathlib

/-!
Verification of the media-serve core of the `autumn` repository
(`src/routes/serve.rs`): the resize-policy resolver embedded in
`fetch_file`, the transcoder wrapper `try_resize`, and the fetch
orchestration that ties them together.

Modelling conventions:
* Rust `isize` values (stored dimensions and the four query parameters)
  are embedded as `Int`; the `as u32` casts are modelled explicitly as
  reduction modulo `2 ^ 32` (`toU32`).
* `f32` arithmetic in the proportional-scaling branches is idealised as
  exact rational arithmetic, with Rust's `f32 as isize` cast modelled as
  truncation toward zero (`ratTrunc`).
* The `image` / `webp` library calls inside `try_resize` (format
  guessing, decoding, thumbnailing, encoding) are abstracted as an
  oracle record `ImageOps`; `try_resize` and `fetch_file` are embedded
  relative to an arbitrary such oracle, so only the control flow of
  `serve.rs` itself is fixed by the embedding.
* The storage-backend retrieval at the top of `fetch_file` (S3 or local
  filesystem) is I/O; the embedding of `fetch_file` starts after it,
  taking the fetched byte buffer `contents` as an argument.
-/

namespace Autumn

/-- Truncation of a rational toward zero: the effect of Rust's
`f32 as isize` cast (for in-range values), with `f32` arithmetic
idealised as exact rational arithmetic. -/
def ratTrunc (q : Rat) : Int := if q < 0 then ⌈q⌉ else ⌊q⌋

/-- The scaling expression pattern of `serve.rs`,
`(a as f32 * (b as f32 / c as f32)) as isize`. -/
def fscale (a b c : Int) : Int := ratTrunc ((a : Rat) * ((b : Rat) / (c : Rat)))

/-- Rust's truncating `isize as u32` cast (low 32 bits of the
two's-complement representation). -/
def toU32 (i : Int) : Nat := (i % (2 ^ 32 : Int)).toNat

/-- The `Resize` query struct of `serve.rs`: four independent optional
signed integers. -/
structure Resize where
  size : Option Int
  width : Option Int
  height : Option Int
  max_side : Option Int
deriving Repr, DecidableEq

/-- The stored-object metadata consumed by `fetch_file`: either image
dimensions or any non-image kind (the `_` arm of the Rust match). -/
inductive Metadata where
  | Image (width height : Int)
  | Other
deriving Repr, DecidableEq

/-- The error enum of `util::result::Error`, restricted to the variants
`serve.rs` produces. -/
inductive Error where
  | S3Error
  | IOError
  | NotFound
  | BlockingError
deriving Repr, DecidableEq

/-- The process-wide output-format configuration `ServeConfig`:
always-lossless PNG, or WEBP with an optional lossy quality. -/
inductive ServeConfig where
  | PNG
  | WEBP (quality : Option Rat)

/-- Oracle record abstracting the `image` / `webp` library calls made by
`try_resize`. `Reader`, `Img`, `Enc` are the library's reader, decoded
image and webp-encoder types; `E` is `image::ImageError`. -/
structure ImageOps (Reader Img Enc E : Type) where
  withGuessedFormat : List Nat → Except E Reader
  decode : Reader → Except E Img
  thumbnailExact : Img → Nat → Nat → Img
  writePng : Img → Except E (List Nat)
  encoderFromImage : Img → Option Enc
  encode : Enc → Rat → List Nat
  encodeLossless : Enc → List Nat

/-- Outcome of `try_resize`: success with encoded bytes, a returned
`ImageError`, or a panic (the `.expect(...)` on webp encoder creation). -/
inductive TryResizeResult (E : Type) where
  | ok (bytes : List Nat)
  | err (e : E)
  | panics
deriving Repr

/-- Embedding of `try_resize` (serve.rs lines 25-53): guess the format
and decode (each fallible via `?`), thumbnail to the exact target size,
then encode per the configured output format. In the WEBP branch,
encoder construction failure hits `.expect("Could not create encoder.")`
and panics rather than returning an error. -/
def try_resize {R I N E : Type} (ops : ImageOps R I N E) (config : ServeConfig)
    (buf : List Nat) (width height : Nat) : TryResizeResult E :=
  match ops.withGuessedFormat buf with
  | .error e => .err e
  | .ok reader =>
    match ops.decode reader with
    | .error e => .err e
    | .ok decoded =>
      let image := ops.thumbnailExact decoded width height
      match config with
      | .PNG =>
        match ops.writePng image with
        | .error e => .err e
        | .ok bytes => .ok bytes
      | .WEBP quality =>
        match ops.encoderFromImage image with
        | none => .panics
        | some encoder =>
          match quality with
          | some q => .ok (ops.encode encoder q)
          | none => .ok (ops.encodeLossless encoder)

/-- The resize-policy resolver: the `match params` inside `fetch_file`
(serve.rs lines 96-132). Arms are tried in the Rust source order:
`size` present; else `max_side` present; else `width` and `height`
both present; else `width` present; else `height` present; else no
resize. -/
def resolve (width height : Int) (params : Resize) : Option (Int × Int) :=
  match params.size, params.max_side, params.width, params.height with
  | some requested_size, _, _, _ =>
    let smallest_size := min requested_size (min width height)
    some (smallest_size, smallest_size)
  | none, some requested_max_side, _, _ =>
    if width ≤ height then
      let h := min height requested_max_side
      some (fscale width h height, h)
    else
      let w := min width requested_max_side
      some (w, fscale height w width)
  | none, none, some requested_width, some requested_height =>
    some (min width requested_width, min height requested_height)
  | none, none, some requested_width, none =>
    let w := min width requested_width
    some (w, fscale w height width)
  | none, none, none, some requested_height =>
    let h := min height requested_height
    some (fscale h width height, h)
  | none, none, none, none => none

/-- Content type attached when a transcode occurred, per the match on
`config.serve` in `fetch_file` (serve.rs lines 142-145). -/
def serveContentType : ServeConfig → String
  | .PNG => "image/png"
  | .WEBP _ => "image/webp"

/-- The tail of `fetch_file` after the blocking task has run: map a
`try_resize` success to the new bytes plus the configured content type,
and a returned `ImageError` to `Error::IOError` (after logging). A panic
inside the blocking closure surfaces as a failed join of the blocking
task, i.e. as `Error::BlockingError`. -/
def afterResize {E : Type} (config : ServeConfig) :
    TryResizeResult E → Except Error (List Nat × Option String)
  | .ok resized => .ok (resized, some (serveContentType config))
  | .err _ => .error .IOError
  | .panics => .error .BlockingError

/-- Embedding of `fetch_file` (serve.rs lines 55-155) after the storage
backend has produced the byte buffer `contents`. `blockingOk` models
whether dispatch to the blocking-work pool succeeds (`web::block`'s
await, mapped to `Error::BlockingError` on failure). Non-image metadata
and absent or empty resize requests echo the bytes with no content-type
override; otherwise the resolved target dimensions are cast to `u32`
and handed to `try_resize`. -/
def fetch_file {R I N E : Type} (ops : ImageOps R I N E) (config : ServeConfig)
    (blockingOk : Bool) (contents : List Nat) (metadata : Metadata)
    (resizeParams : Option Resize) : Except Error (List Nat × Option String) :=
  match metadata with
  | .Other => .ok (contents, none)
  | .Image width height =>
    match resizeParams with
    | none => .ok (contents, none)
    | some params =>
      match resolve width height params with
      | none => .ok (contents, none)
      | some (new_width, new_height) =>
        if blockingOk then
          afterResize config
            (try_resize ops config contents (toU32 new_width) (toU32 new_height))
        else
          .error .BlockingError

/-- A trivial oracle over `Unit` whose decode pipeline always succeeds;
used to instantiate theorems at concrete inputs. -/
def okOps : ImageOps Unit Unit Unit Unit where
  withGuessedFormat _ := .ok ()
  decode _ := .ok ()
  thumbnailExact _ _ _ := ()
  writePng _ := .ok [0]
  encoderFromImage _ := some ()
  encode _ _ := [1]
  encodeLossless _ := [2]

/-- An oracle whose format-guessing step always fails, modelling a byte
buffer that is not a decodable image. -/
def badBytesOps : ImageOps Unit Unit Unit Unit where
  withGuessedFormat _ := .error ()
  decode _ := .error ()
  thumbnailExact _ _ _ := ()
  writePng _ := .ok [0]
  encoderFromImage _ := some ()
  encode _ _ := [1]
  encodeLossless _ := [2]

/-- An oracle that decodes fine but for whose images a webp encoder can
never be constructed. -/
def noEncoderOps : ImageOps Unit Unit Unit Unit where
  withGuessedFormat _ := .ok ()
  decode _ := .ok ()
  thumbnailExact _ _ _ := ()
  writePng _ := .ok [0]
  encoderFromImage _ := none
  encode _ _ := [1]
  encodeLossless _ := [2]


/-- Truncation toward zero never exceeds an integer upper bound of its argument. -/
theorem ratTrunc_le (x : Rat) (n : Int) (h : x ≤ (n : Rat)) : ratTrunc x ≤ n := by
  unfold ratTrunc
  split
  · exact Int.ceil_le.mpr h
  · exact le_trans (Int.floor_le_floor h) (le_of_eq (Int.floor_intCast n))

/-- Truncation toward zero is the identity on integers. -/
theorem ratTrunc_intCast (n : Int) : ratTrunc (n : Rat) = n := by
  unfold ratTrunc
  split
  · exact Int.ceil_intCast n
  · exact Int.floor_intCast n

/-- Scaling `a` by a ratio `b / c` with `b ≤ c` cannot exceed `a` (for `0 ≤ a`, `0 < c`). -/
theorem fscale_le_left (a b c : Int) (ha : 0 ≤ a) (hc : 0 < c) (hbc : b ≤ c) :
    fscale a b c ≤ a := by
  apply ratTrunc_le
  have hc' : (0 : Rat) < (c : Rat) := by exact_mod_cast hc
  have h1 : (b : Rat) / (c : Rat) ≤ 1 := (div_le_one hc').mpr (by exact_mod_cast hbc)
  calc (a : Rat) * ((b : Rat) / (c : Rat)) ≤ (a : Rat) * 1 :=
        mul_le_mul_of_nonneg_left h1 (by exact_mod_cast ha)
    _ = (a : Rat) := mul_one _

/-- Scaling `a ≤ c` by the ratio `b / c` cannot exceed `b` (for `0 ≤ b`, `0 < c`). -/
theorem fscale_le_mid (a b c : Int) (hb : 0 ≤ b) (hc : 0 < c) (hac : a ≤ c) :
    fscale a b c ≤ b := by
  apply ratTrunc_le
  have hc' : (0 : Rat) < (c : Rat) := by exact_mod_cast hc
  have hr : (0 : Rat) ≤ (b : Rat) / (c : Rat) :=
    div_nonneg (by exact_mod_cast hb) hc'.le
  have h1 : (a : Rat) * ((b : Rat) / (c : Rat)) ≤ (c : Rat) * ((b : Rat) / (c : Rat)) :=
    mul_le_mul_of_nonneg_right (by exact_mod_cast hac) hr
  have h2 : (c : Rat) * ((b : Rat) / (c : Rat)) = (b : Rat) := by
    field_simp
  exact h1.trans h2.le

/-- Scaling by the ratio `c / c` is the identity when `c ≠ 0`. -/
theorem fscale_cancel_right (a c : Int) (hc : c ≠ 0) : fscale a c c = a := by
  unfold fscale
  rw [div_self (by exact_mod_cast hc : (c : Rat) ≠ 0), mul_one, ratTrunc_intCast]

/-- Scaling `c` by the ratio `b / c` yields `b` when `c ≠ 0`. -/
theorem fscale_cancel_left (b c : Int) (hc : c ≠ 0) : fscale c b c = b := by
  unfold fscale
  have hc' : (c : Rat) ≠ 0 := by exact_mod_cast hc
  have h2 : (c : Rat) * ((b : Rat) / (c : Rat)) = (b : Rat) := by field_simp
  rw [h2, ratTrunc_intCast]


/-- C1: for strictly positive stored dimensions and any `Resize` request,
whichever policy branch fires, the resolved target width is at most the
stored width and the resolved target height is at most the stored
height. -/
theorem resolve_within_stored (w h : Int) (hw : 0 < w) (hh : 0 < h)
    (r : Resize) (tw th : Int) (hres : resolve w h r = some (tw, th)) :
    tw ≤ w ∧ th ≤ h := by
  obtain ⟨s, rw_, rh_, m⟩ := r
  cases s with
  | some s =>
    simp only [resolve, Option.some.injEq, Prod.mk.injEq] at hres
    obtain ⟨h1, h2⟩ := hres
    subst h1; subst h2
    exact ⟨le_trans (min_le_right s (min w h)) (min_le_left w h),
      le_trans (min_le_right s (min w h)) (min_le_right w h)⟩
  | none =>
    cases m with
    | some m =>
      by_cases hwh : w ≤ h
      · simp only [resolve, hwh, if_true, Option.some.injEq, Prod.mk.injEq] at hres
        obtain ⟨h1, h2⟩ := hres
        subst h1; subst h2
        exact ⟨fscale_le_left w (min h m) h hw.le hh (min_le_left h m),
          min_le_left h m⟩
      · simp only [resolve, hwh, if_false, Option.some.injEq, Prod.mk.injEq] at hres
        obtain ⟨h1, h2⟩ := hres
        subst h1; subst h2
        exact ⟨min_le_left w m,
          fscale_le_left h (min w m) w hh.le hw (min_le_left w m)⟩
    | none =>
      cases rw_ with
      | some rw_ =>
        cases rh_ with
        | some rh_ =>
          simp only [resolve, Option.some.injEq, Prod.mk.injEq] at hres
          obtain ⟨h1, h2⟩ := hres
          subst h1; subst h2
          exact ⟨min_le_left w rw_, min_le_left h rh_⟩
        | none =>
          simp only [resolve, Option.some.injEq, Prod.mk.injEq] at hres
          obtain ⟨h1, h2⟩ := hres
          subst h1; subst h2
          exact ⟨min_le_left w rw_,
            fscale_le_mid (min w rw_) h w hh.le hw (min_le_left w rw_)⟩
      | none =>
        cases rh_ with
        | some rh_ =>
          simp only [resolve, Option.some.injEq, Prod.mk.injEq] at hres
          obtain ⟨h1, h2⟩ := hres
          subst h1; subst h2
          exact ⟨fscale_le_mid (min h rh_) w h hw.le hh (min_le_left h rh_),
            min_le_left h rh_⟩
        | none =>
          simp only [resolve] at hres
          exact Option.noConfusion hres

/-- Witness for C1 at stored `(100, 80)` with `size = 50`. -/
theorem resolve_within_stored_witness : (50 : Int) ≤ 100 ∧ (50 : Int) ≤ 80 :=
  resolve_within_stored 100 80 (by norm_num) (by norm_num)
    ⟨some 50, none, none, none⟩ 50 50 (by norm_num [resolve])


/-- C2: the resolver is a strict priority chain, first matching field
wins: a present `size` beats a present `max_side`, which beats `width`
and `height` both present, which beats `width` alone, which beats
`height` alone; with no field present there is no resize. Each conjunct
pins the result of `resolve` under the corresponding presence pattern,
for every request, including requests with several fields present. -/
theorem resolve_priority_chain (w h : Int) (r : Resize) :
    (∀ s, r.size = some s →
      resolve w h r = some (min s (min w h), min s (min w h))) ∧
    (r.size = none → ∀ m, r.max_side = some m →
      resolve w h r = some (if w ≤ h then (fscale w (min h m) h, min h m)
        else (min w m, fscale h (min w m) w))) ∧
    (r.size = none → r.max_side = none →
      ∀ rw_ rh_, r.width = some rw_ → r.height = some rh_ →
      resolve w h r = some (min w rw_, min h rh_)) ∧
    (r.size = none → r.max_side = none → r.height = none → ∀ rw_, r.width = some rw_ →
      resolve w h r = some (min w rw_, fscale (min w rw_) h w)) ∧
    (r.size = none → r.max_side = none → r.width = none → ∀ rh_, r.height = some rh_ →
      resolve w h r = some (fscale (min h rh_) w h, min h rh_)) ∧
    (r.size = none → r.max_side = none → r.width = none → r.height = none →
      resolve w h r = none) := by
  obtain ⟨s, rw_, rh_, m⟩ := r
  refine ⟨?_, ?_, ?_, ?_, ?_, ?_⟩
  · rintro s' rfl
    simp [resolve]
  · rintro rfl m' rfl
    cases rw_ <;> cases rh_ <;> simp [resolve] <;> split <;> simp
  · rintro rfl rfl rw' rh' rfl rfl
    simp [resolve]
  · rintro rfl rfl rfl rw' rfl
    simp [resolve]
  · rintro rfl rfl rfl rh' rfl
    simp [resolve]
  · rintro rfl rfl rfl rfl
    simp [resolve]

/-- Witness for C2: with all four fields present, `size` wins. -/
theorem resolve_priority_chain_witness :
    resolve 100 80 ⟨some 10, some 20, some 30, some 40⟩ = some (10, 10) := by
  have := (resolve_priority_chain 100 80 ⟨some 10, some 20, some 30, some 40⟩).1 10 rfl
  simpa using this

/-- C3 counterexample: for stored `(500, 500)` (square) the
`width`+`height` branch with `width = 100`, `height = 200` produces the
unequal target `(100, 200)`, refuting the claim that every policy branch
maps a square original to a square target. -/
theorem resolve_square_unequal_counterexample :
    resolve 500 500 ⟨none, some 100, some 200, none⟩ = some (100, 200) ∧
      (100 : Int) ≠ 200 := by
  constructor
  · norm_num [resolve]
  · norm_num

/-- C3 amended: for strictly positive stored dimensions with
`width = height`, every policy branch except the independent
`width`+`height` clamp produces a target whose width equals its
height. -/
theorem resolve_square_equal_amended (w : Int) (hw : 0 < w) (r : Resize)
    (hnot : ¬ (r.size = none ∧ r.max_side = none ∧
      r.width.isSome ∧ r.height.isSome))
    (tw th : Int) (hres : resolve w w r = some (tw, th)) : tw = th := by
  have hw0 : w ≠ 0 := ne_of_gt hw
  obtain ⟨s, rw_, rh_, m⟩ := r
  cases s with
  | some s =>
    simp only [resolve, Option.some.injEq, Prod.mk.injEq] at hres
    omega
  | none =>
    cases m with
    | some m =>
      simp only [resolve, le_refl, if_true, Option.some.injEq, Prod.mk.injEq] at hres
      rw [fscale_cancel_left (min w m) w hw0] at hres
      omega
    | none =>
      cases rw_ with
      | some rw' =>
        cases rh_ with
        | some rh' => simp at hnot
        | none =>
          simp only [resolve, Option.some.injEq, Prod.mk.injEq] at hres
          rw [fscale_cancel_right (min w rw') w hw0] at hres
          omega
      | none =>
        cases rh_ with
        | some rh' =>
          simp only [resolve, Option.some.injEq, Prod.mk.injEq] at hres
          rw [fscale_cancel_right (min w rh') w hw0] at hres
          omega
        | none =>
          simp only [resolve] at hres
          exact Option.noConfusion hres

/-- Witness for amended C3 at stored `(5, 5)` with `size = 3`. -/
theorem resolve_square_equal_amended_witness : (3 : Int) = 3 :=
  resolve_square_equal_amended 5 (by norm_num) ⟨some 3, none, none, none⟩
    (by simp) 3 3 (by norm_num [resolve])

/-- C4: when `size` is present the target is a square of side
`min(size, min(width, height))`; in particular when `size` is at least
`max(width, height)` the target is `(min(w, h), min(w, h))`. -/
theorem resolve_size_square (w h s : Int) (rw_ rh_ m : Option Int) :
    resolve w h ⟨some s, rw_, rh_, m⟩ = some (min s (min w h), min s (min w h)) ∧
      (max w h ≤ s →
        resolve w h ⟨some s, rw_, rh_, m⟩ = some (min w h, min w h)) := by
  constructor
  · simp [resolve]
  · intro hs
    have hmin : min s (min w h) = min w h :=
      min_eq_right (le_trans (min_le_left w h) (le_trans (le_max_left w h) hs))
    simp [resolve, hmin]

/-- Witness for C4 at stored `(3, 5)` with `size = 10 ≥ max`. -/
theorem resolve_size_square_witness :
    resolve 3 5 ⟨some 10, none, none, none⟩ = some (3, 3) := by
  have := (resolve_size_square 3 5 10 none none none).2 (by norm_num)
  simpa using this

/-- C5: when `max_side` is the highest-priority present field, the
longer stored axis is clamped to `min(max_side, that axis)` and the
shorter axis is scaled by the ratio `new_long / original_long` and
truncated; concretely, stored `(1000, 400)` with `max_side = 500`
resolves to `(500, 200)`. -/
theorem resolve_max_side_clamps_longer :
    (∀ (w h m : Int) (rw_ rh_ : Option Int),
      resolve w h ⟨none, rw_, rh_, some m⟩ =
        some (if w ≤ h then (fscale w (min h m) h, min h m)
          else (min w m, fscale h (min w m) w))) ∧
    resolve 1000 400 ⟨none, none, none, some 500⟩ = some (500, 200) := by
  constructor
  · intro w h m rw_ rh_
    cases rw_ <;> cases rh_ <;> simp [resolve] <;> split <;> simp
  · norm_num [resolve, fscale, ratTrunc]

/-- C6: when the stored metadata is not the `Image` variant,
`fetch_file` returns the fetched bytes unchanged with content type
`none`, regardless of the resize parameters supplied. -/
theorem fetch_file_non_image {R I N E : Type} (ops : ImageOps R I N E)
    (config : ServeConfig) (blockingOk : Bool) (contents : List Nat)
    (metadata : Metadata) (hmd : ∀ w h, metadata ≠ Metadata.Image w h)
    (resizeParams : Option Resize) :
    fetch_file ops config blockingOk contents metadata resizeParams =
      .ok (contents, none) := by
  cases metadata with
  | Image w h => exact absurd rfl (hmd w h)
  | Other => simp [fetch_file]

/-- Witness for C6: non-image bytes pass through untouched. -/
theorem fetch_file_non_image_witness :
    fetch_file okOps ServeConfig.PNG true [7] Metadata.Other
      (some ⟨some 10, none, none, none⟩) = .ok ([7], none) :=
  fetch_file_non_image okOps ServeConfig.PNG true [7] Metadata.Other
    (by intro w h; simp) (some ⟨some 10, none, none, none⟩)

/-- C7: if the buffer's format cannot be guessed or its decode fails,
and the metadata is `Image` with a resize request that resolves to
target dimensions, `fetch_file` returns `Error.IOError` — never the
unmodified bytes as a success. (The server-side log line carrying the
object id and the request is an I/O effect outside the embedding.) -/
theorem fetch_file_undecodable_errors {R I N E : Type} (ops : ImageOps R I N E)
    (config : ServeConfig) (contents : List Nat) (w h : Int) (r : Resize)
    (nw nh : Int) (hres : resolve w h r = some (nw, nh))
    (hbad : (∃ e, ops.withGuessedFormat contents = .error e) ∨
      (∃ rd e, ops.withGuessedFormat contents = .ok rd ∧ ops.decode rd = .error e)) :
    fetch_file ops config true contents (Metadata.Image w h) (some r) =
      .error Error.IOError := by
  rcases hbad with ⟨e, he⟩ | ⟨rd, e, hok, he⟩
  · simp [fetch_file, hres, try_resize, he, afterResize]
  · simp [fetch_file, hres, try_resize, hok, he, afterResize]

/-- Witness for C7 with an oracle whose format guess always fails. -/
theorem fetch_file_undecodable_errors_witness :
    fetch_file badBytesOps ServeConfig.PNG true [9] (Metadata.Image 10 10)
      (some ⟨some 5, none, none, none⟩) = .error Error.IOError :=
  fetch_file_undecodable_errors badBytesOps ServeConfig.PNG [9] 10 10
    ⟨some 5, none, none, none⟩ 5 5 (by norm_num [resolve]) (Or.inl ⟨(), rfl⟩)

/-- C8: resolved target dimensions are passed to the transcoder through
a truncating `isize as u32` cast, so a negative resolved dimension —
reachable with a negative query parameter — reaches `try_resize` as a
huge unsigned value: stored `(100, 100)` with `width = -1` resolves to
`(-1, -1)` and `try_resize` is invoked with `4294967295`. -/
theorem negative_dims_cast_to_huge {R I N E : Type} (ops : ImageOps R I N E)
    (config : ServeConfig) (contents : List Nat) :
    resolve 100 100 ⟨none, some (-1), none, none⟩ = some (-1, -1) ∧
    toU32 (-1) = 4294967295 ∧
    fetch_file ops config true contents (Metadata.Image 100 100)
        (some ⟨none, some (-1), none, none⟩) =
      afterResize config (try_resize ops config contents 4294967295 4294967295) := by
  have h1 : resolve 100 100 ⟨none, some (-1), none, none⟩ = some (-1, -1) := by
    norm_num [resolve, fscale, ratTrunc]
    decide
  have h2 : toU32 (-1) = 4294967295 := by
    norm_num [toU32]
    rfl
  exact ⟨h1, h2, by simp [fetch_file, h1, h2]⟩

/-- C9: in WEBP output mode, when the webp encoder cannot be
constructed from the decoded image, `try_resize` panics (the `expect`
on encoder creation) instead of returning an error value. -/
theorem try_resize_webp_encoder_panics {R I N E : Type} (ops : ImageOps R I N E)
    (q : Option Rat) (buf : List Nat) (width height : Nat) (rd : R) (img : I)
    (hguess : ops.withGuessedFormat buf = .ok rd)
    (hdec : ops.decode rd = .ok img)
    (henc : ops.encoderFromImage (ops.thumbnailExact img width height) = none) :
    try_resize ops (ServeConfig.WEBP q) buf width height = .panics := by
  simp [try_resize, hguess, hdec, henc]

/-- Witness for C9 with an oracle that never yields an encoder. -/
theorem try_resize_webp_encoder_panics_witness :
    try_resize noEncoderOps (ServeConfig.WEBP none) [1] 4 4 = .panics :=
  try_resize_webp_encoder_panics noEncoderOps none [1] 4 4 () () rfl rfl rfl

/-- C10: in the `max_side` branch a width/height tie is resolved by the
non-strict `width ≤ height` comparison, treating height as the longer
axis: the target height is the integer clamp `min(height, max_side)`
and the target width is the scaled, truncated value. -/
theorem resolve_max_side_tie_height (w m : Int) (rw_ rh_ : Option Int) :
    resolve w w ⟨none, rw_, rh_, some m⟩ =
      some (fscale w (min w m) w, min w m) := by
  cases rw_ <;> cases rh_ <;> simp [resolve]

end Autumn
